import Mathlib

/-
Verification of the convergence core of the rust-crdt repository.

The given source (src/src/traits.rs) declares the replication contracts:
`CvRDT` (state-merge), `CmRDT` (op-apply), `ResetRemove` (causal reset) and
the runtime-checked `FunkyCvRDT` / `FunkyCmRDT` variants.  The causal-context
primitive (`VClock`) those contracts depend on, and the LWW register named by
the funky traits, are not part of the given source; they are modelled from the
specification, as marked on each such definition.
-/

namespace RustCrdt

/-- A dot: a single (actor, counter) pair identifying one causal event
(spec glossary). -/
structure Dot (A : Type) where
  actor : A
  counter : Nat
deriving DecidableEq, Repr

/-- Modelled from the spec: the causal context (vector clock) is not in the
given source (src/src/traits.rs only references `VClock`); spec section 3
defines it as a mapping Actor → non-negative counter where absence of an actor
is equivalent to a counter of 0, so it is embedded as a total function to Nat. -/
def VClock (A : Type) : Type := A → Nat

namespace VClock

variable {A : Type}

/-- Modelled from the spec: merge of two contexts is the pointwise maximum per
actor (spec sections 3 and 4.1). -/
def merge (c o : VClock A) : VClock A := fun a => Nat.max (c a) (o a)

/-- Merging a whole list of contexts into a starting state, one merge per
element, in list order. -/
def mergeAll (s : VClock A) (l : List (VClock A)) : VClock A := l.foldl merge s

/-- Modelled from the spec: `issue(actor)` strictly increments the counter for
the actor in this context and returns the new (actor, counter) pair
(spec section 4.1). -/
def issue [DecidableEq A] (c : VClock A) (a : A) : Dot A × VClock A :=
  (⟨a, c a + 1⟩, Function.update c a (c a + 1))

/-- Issuing a dot for each actor of a list in turn, returning all issued dots
and the final context. -/
def issueList [DecidableEq A] (c : VClock A) : List A → List (Dot A) × VClock A
  | [] => ([], c)
  | a :: rest =>
    let p := issue c a
    let q := issueList p.2 rest
    (p.1 :: q.1, q.2)

/-- The counters carried by the dots of a given actor, in sequence order. -/
def countersFor [DecidableEq A] (a : A) (ds : List (Dot A)) : List Nat :=
  (ds.filter (fun d => d.actor = a)).map Dot.counter

/-- Modelled from the spec: `dominates(dot)` is true iff the context's counter
for `dot.actor` is ≥ `dot.counter` (spec section 4.1). -/
def dominates (c : VClock A) (d : Dot A) : Prop := d.counter ≤ c d.actor

instance (c : VClock A) (d : Dot A) : Decidable (c.dominates d) :=
  Nat.decLe _ _

/-- Context `c` is pointwise below `o`: each actor's counter in `c` is ≤ its
counter in `o` ("o dominates c"). -/
def le (c o : VClock A) : Prop := ∀ a, c a ≤ o a

instance [Fintype A] (c o : VClock A) : Decidable (le c o) :=
  Fintype.decidableForallFintype

instance [Fintype A] : DecidableEq (VClock A) :=
  Fintype.decidablePiFintype

/-- The four outcomes of comparing two causal contexts (spec section 4.1). -/
inductive CausalOrder where
  | Equal
  | Less
  | Greater
  | Concurrent
deriving DecidableEq, Repr

/-- Modelled from the spec: `partial_compare` compares two contexts pointwise
and returns Equal, Less, Greater or Concurrent (spec sections 3 and 4.1);
embedded over a finite actor universe so the pointwise tests are decidable. -/
def partialCompare [Fintype A] (c o : VClock A) : CausalOrder :=
  if ∀ a, c a = o a then .Equal
  else if ∀ a, c a ≤ o a then .Less
  else if ∀ a, o a ≤ c a then .Greater
  else .Concurrent

/-- Modelled from the spec: applying a dot (the op of the causal context's
op-apply instance) raises that actor's counter to at least the dot's counter;
a dot already observed changes nothing (spec sections 2 and 4.3). -/
def applyDot [DecidableEq A] (c : VClock A) (d : Dot A) : VClock A :=
  fun a => if a = d.actor then Nat.max (c a) d.counter else c a

/-- Applying a whole sequence of dots in list order. -/
def applyList [DecidableEq A] (c : VClock A) (l : List (Dot A)) : VClock A :=
  l.foldl applyDot c

end VClock

/-- Modelled from the spec: a dependent dot-store, the kind of data structure
the `ResetRemove` trait of src/src/traits.rs is implemented on: a list of
elements each tagged with the dot of the event that wrote it. -/
def resetRemoveStore {A E : Type} (clock : VClock A) (store : List (E × Dot A)) :
    List (E × Dot A) :=
  store.filter (fun p => ¬ clock.dominates p.2)

/-- A two-element actor type for the concrete scenarios. -/
inductive TwoActors where
  | A
  | B
deriving DecidableEq, Repr

instance : Fintype TwoActors :=
  ⟨⟨↑[TwoActors.A, TwoActors.B], by decide⟩, fun x => by cases x <;> decide⟩

/-- The context called `{A:2, B:1}` in the spec's concrete scenario. -/
def ctxA : VClock TwoActors := fun a => match a with | .A => 2 | .B => 1

/-- The context called `{A:1, B:3}` in the spec's concrete scenario. -/
def ctxB : VClock TwoActors := fun a => match a with | .A => 1 | .B => 3

/-- The expected merge `{A:2, B:3}` of the spec's concrete scenario. -/
def ctxMerged : VClock TwoActors := fun a => match a with | .A => 2 | .B => 3

/-- C9: merging the contexts {A:2, B:1} and {A:1, B:3} yields {A:2, B:3}, the
partial comparison of the two inputs is Concurrent, and both inputs are
dominated by the merged result. -/
theorem concrete_merge_scenario :
    VClock.merge ctxA ctxB = ctxMerged ∧
    VClock.partialCompare ctxA ctxB = VClock.CausalOrder.Concurrent ∧
    VClock.le ctxA (VClock.merge ctxA ctxB) ∧
    VClock.le ctxB (VClock.merge ctxA ctxB) := by
  refine ⟨funext fun a => by cases a <;> rfl, by decide,
    fun a => Nat.le_max_left _ _, fun a => Nat.le_max_right _ _⟩

/-- C3: applying the same dot twice to a causal context yields the same state
as applying it once. -/
theorem cmrdt_apply_idempotent {A : Type} [DecidableEq A] (c : VClock A) (d : Dot A) :
    VClock.applyDot (VClock.applyDot c d) d = VClock.applyDot c d := by
  funext x
  simp only [VClock.applyDot]
  split_ifs <;> simp [Nat.max_assoc]

/-- C4: the partial comparison of any two contexts is total — it always yields
exactly one of the four outcomes Equal, Less, Greater, Concurrent — and the
merge of two contexts dominates both of its inputs. -/
theorem compare_total_and_merge_dominates {A : Type} [Fintype A] (c o : VClock A) :
    (∃! r : VClock.CausalOrder, VClock.partialCompare c o = r) ∧
    (VClock.partialCompare c o = .Equal ∨ VClock.partialCompare c o = .Less ∨
      VClock.partialCompare c o = .Greater ∨ VClock.partialCompare c o = .Concurrent) ∧
    VClock.le c (VClock.merge c o) ∧ VClock.le o (VClock.merge c o) := by
  refine ⟨⟨VClock.partialCompare c o, rfl, fun r hr => hr.symm⟩, ?_,
    fun a => Nat.le_max_left _ _, fun a => Nat.le_max_right _ _⟩
  cases h : VClock.partialCompare c o <;> simp

/-- Merging a list of contexts computes, at each actor, the join of the start
state's counter with the supremum of the counters over the set of distinct
merged contexts. -/
theorem mergeAll_eq_sup {A : Type} [Fintype A] (s : VClock A) (l : List (VClock A)) (x : A) :
    VClock.mergeAll s l x = s x ⊔ l.toFinset.sup (fun c => c x) := by
  induction l generalizing s with
  | nil => simp [VClock.mergeAll]
  | cons c t ih =>
    have hstep : VClock.mergeAll s (c :: t) = VClock.mergeAll (VClock.merge s c) t := rfl
    rw [hstep, ih, List.toFinset_cons, Finset.sup_insert]
    show (s x ⊔ c x) ⊔ _ = _
    rw [sup_assoc]

/-- C1: the merge of causal contexts is idempotent, commutative and
associative in the forms the spec states, and the result of merging a list of
contexts depends only on the set of distinct contexts merged, not on order or
repetition. -/
theorem cvrdt_merge_semilattice {A : Type} [Fintype A] (s a b c : VClock A)
    (l₁ l₂ : List (VClock A)) (h : l₁.toFinset = l₂.toFinset) :
    VClock.merge (VClock.merge s a) a = VClock.merge s a ∧
    VClock.merge (VClock.merge s a) b = VClock.merge (VClock.merge s b) a ∧
    VClock.merge (VClock.merge a b) c = VClock.merge a (VClock.merge b c) ∧
    VClock.mergeAll s l₁ = VClock.mergeAll s l₂ := by
  refine ⟨funext fun x => ?_, funext fun x => ?_, funext fun x => ?_, funext fun x => ?_⟩
  · show Nat.max (Nat.max (s x) (a x)) (a x) = Nat.max (s x) (a x)
    simp only [Nat.max_def]
    split_ifs <;> omega
  · show Nat.max (Nat.max (s x) (a x)) (b x) = Nat.max (Nat.max (s x) (b x)) (a x)
    simp only [Nat.max_def]
    split_ifs <;> omega
  · show Nat.max (Nat.max (a x) (b x)) (c x) = Nat.max (a x) (Nat.max (b x) (c x))
    simp only [Nat.max_def]
    split_ifs <;> omega
  · rw [mergeAll_eq_sup, mergeAll_eq_sup, h]

/-- C1 witness: the merge laws and repetition-invariance at concrete contexts
over two actors. -/
theorem cvrdt_merge_semilattice_witness :
    ([ctxA] : List (VClock TwoActors)).toFinset = [ctxA, ctxA].toFinset ∧
    (VClock.merge (VClock.merge ctxA ctxB) ctxB = VClock.merge ctxA ctxB ∧
      VClock.merge (VClock.merge ctxA ctxB) ctxMerged =
        VClock.merge (VClock.merge ctxA ctxMerged) ctxB ∧
      VClock.merge (VClock.merge ctxB ctxMerged) ctxMerged =
        VClock.merge ctxB (VClock.merge ctxMerged ctxMerged) ∧
      VClock.mergeAll ctxA [ctxA] = VClock.mergeAll ctxA [ctxA, ctxA]) :=
  ⟨by simp, cvrdt_merge_semilattice ctxA ctxB ctxMerged ctxMerged [ctxA] [ctxA, ctxA] (by simp)⟩

/-- Applying two dots to a causal context commutes. -/
theorem applyDot_comm {A : Type} [DecidableEq A] (c : VClock A) (d₁ d₂ : Dot A) :
    VClock.applyDot (VClock.applyDot c d₁) d₂ = VClock.applyDot (VClock.applyDot c d₂) d₁ := by
  funext x
  simp only [VClock.applyDot]
  split_ifs <;> simp [Nat.max_assoc, Nat.max_comm, Nat.max_left_comm]

/-- C2: applying two dot sequences that are permutations of each other and
agree on every actor's own subsequence of dots yields the same final context
from any starting context. -/
theorem cmrdt_apply_converges {A : Type} [DecidableEq A] (c : VClock A)
    (l₁ l₂ : List (Dot A)) (hperm : l₁.Perm l₂)
    (_horder : ∀ a : A, l₁.filter (fun d => d.actor = a) = l₂.filter (fun d => d.actor = a)) :
    VClock.applyList c l₁ = VClock.applyList c l₂ :=
  hperm.foldl_eq' (fun d₁ _ d₂ _ z => applyDot_comm z d₁ d₂) c

/-- C2 witness: two interleavings of dots from actors A and B that keep each
actor's own order converge on a concrete context. -/
theorem cmrdt_apply_converges_witness :
    ([⟨TwoActors.A, 1⟩, ⟨TwoActors.B, 1⟩, ⟨TwoActors.A, 2⟩] : List (Dot TwoActors)).Perm
        [⟨TwoActors.B, 1⟩, ⟨TwoActors.A, 1⟩, ⟨TwoActors.A, 2⟩] ∧
    (∀ a : TwoActors,
      ([⟨TwoActors.A, 1⟩, ⟨TwoActors.B, 1⟩, ⟨TwoActors.A, 2⟩] : List (Dot TwoActors)).filter
          (fun d => d.actor = a) =
        ([⟨TwoActors.B, 1⟩, ⟨TwoActors.A, 1⟩, ⟨TwoActors.A, 2⟩] : List (Dot TwoActors)).filter
          (fun d => d.actor = a)) ∧
    VClock.applyList ctxA [⟨TwoActors.A, 1⟩, ⟨TwoActors.B, 1⟩, ⟨TwoActors.A, 2⟩] =
      VClock.applyList ctxA [⟨TwoActors.B, 1⟩, ⟨TwoActors.A, 1⟩, ⟨TwoActors.A, 2⟩] :=
  ⟨by decide, by decide, cmrdt_apply_converges ctxA _ _ (by decide) (by decide)⟩

/-- The clock component of a sequence of issues never decreases any actor's
counter. -/
theorem issueList_clock_le {A : Type} [DecidableEq A] (as : List A) (c : VClock A) (a : A) :
    c a ≤ (VClock.issueList c as).2 a := by
  induction as generalizing c with
  | nil => exact Nat.le_refl _
  | cons a' rest ih =>
    show c a ≤ (VClock.issueList (VClock.issue c a').2 rest).2 a
    refine Nat.le_trans ?_ (ih (VClock.issue c a').2)
    by_cases h : a = a'
    · subst h
      simp [VClock.issue, Function.update]
    · simp [VClock.issue, Function.update, h]

/-- The dot-counter list of an actor over a cons of dots. -/
theorem countersFor_cons {A : Type} [DecidableEq A] (a : A) (d : Dot A) (ds : List (Dot A)) :
    VClock.countersFor a (d :: ds) =
      if d.actor = a then d.counter :: VClock.countersFor a ds
      else VClock.countersFor a ds := by
  by_cases h : d.actor = a <;> simp [VClock.countersFor, List.filter_cons, h]

/-- Every counter issued for an actor during a sequence of issues exceeds that
actor's starting counter, and the issued counters are strictly increasing. -/
theorem issueList_countersFor {A : Type} [DecidableEq A] (as : List A) (c : VClock A) (a : A) :
    (∀ n ∈ VClock.countersFor a (VClock.issueList c as).1, c a < n) ∧
    List.Pairwise (· < ·) (VClock.countersFor a (VClock.issueList c as).1) := by
  induction as generalizing c with
  | nil => simp [VClock.issueList, VClock.countersFor]
  | cons a' rest ih =>
    have hstep : (VClock.issueList c (a' :: rest)).1 =
        ⟨a', c a' + 1⟩ :: (VClock.issueList (VClock.issue c a').2 rest).1 := rfl
    obtain ⟨ih1, ih2⟩ := ih (VClock.issue c a').2
    rw [hstep, countersFor_cons]
    by_cases h : a' = a
    · subst h
      have hupd : (VClock.issue c a').2 a' = c a' + 1 := by
        simp [VClock.issue, Function.update]
      rw [hupd] at ih1
      simp only [if_pos rfl]
      refine ⟨?_, ?_⟩
      · intro n hn
        rcases List.mem_cons.1 hn with rfl | hn
        · exact Nat.lt_succ_self _
        · exact Nat.lt_of_succ_lt (ih1 n hn)
      · exact List.pairwise_cons.2 ⟨fun n hn => ih1 n hn, ih2⟩
    · have hupd : (VClock.issue c a').2 a = c a := by
        have hne : a ≠ a' := fun hh => h hh.symm
        simp [VClock.issue, Function.update, hne]
      rw [hupd] at ih1
      simp only [if_neg h]
      exact ⟨ih1, ih2⟩

/-- C5: issue strictly increments the issuing actor's counter, the returned
dot carries a counter strictly above the prior one, and over any sequence of
issues the counters returned for a fixed actor are strictly increasing — a
counter is never reused. -/
theorem vclock_issue_monotone {A : Type} [DecidableEq A] (c : VClock A) (a : A) (as : List A) :
    (VClock.issue c a).2 a = c a + 1 ∧
    c a < (VClock.issue c a).1.counter ∧
    List.Pairwise (· < ·) (VClock.countersFor a (VClock.issueList c as).1) :=
  ⟨by simp [VClock.issue, Function.update], Nat.lt_succ_self _,
    (issueList_countersFor as c a).2⟩

/-- C6: reset_remove on a dot-store retains, unchanged, every element whose
dot is not dominated by the clock; an element concurrent with or ahead of the
clock is never removed. -/
theorem reset_remove_safe {A E : Type} (clock : VClock A) (store : List (E × Dot A))
    (e : E) (d : Dot A) (hmem : (e, d) ∈ store) (hnd : ¬ clock.dominates d) :
    (e, d) ∈ resetRemoveStore clock store := by
  simp only [resetRemoveStore, List.mem_filter]
  exact ⟨hmem, by simpa using hnd⟩

/-- C6 witness: an element carrying a dot ahead of the clock survives a
concrete reset. -/
theorem reset_remove_safe_witness :
    ((7, (⟨TwoActors.A, 3⟩ : Dot TwoActors)) ∈
        ([(7, ⟨TwoActors.A, 3⟩)] : List (Nat × Dot TwoActors))) ∧
    ¬ VClock.dominates ctxA ⟨TwoActors.A, 3⟩ ∧
    (7, (⟨TwoActors.A, 3⟩ : Dot TwoActors)) ∈
      resetRemoveStore ctxA [(7, ⟨TwoActors.A, 3⟩)] :=
  ⟨by decide, by decide,
    reset_remove_safe ctxA [(7, ⟨TwoActors.A, 3⟩)] 7 ⟨TwoActors.A, 3⟩ (by decide) (by decide)⟩

/-- Modelled from the spec: the last-writer-wins register the funky traits of
src/src/traits.rs name (the unicity-of-timestamp assumption in LWWReg); a
value paired with a marker (timestamp), neither given in src/. -/
structure LWWReg (V : Type) where
  val : V
  marker : Nat
deriving DecidableEq, Repr

/-- The runtime error of the funky merge: two different values carry the same
marker. -/
inductive FunkyError where
  | conflictingMarker
deriving DecidableEq, Repr

/-- Modelled from the spec: the runtime-checked merge keeps whichever operand
carries the larger marker and reports an error when equal markers carry
different values (spec sections 4.5 and 9). -/
def funkyMerge {V : Type} [DecidableEq V] (s o : LWWReg V) : Except FunkyError (LWWReg V) :=
  if s.marker < o.marker then .ok o
  else if o.marker < s.marker then .ok s
  else if s.val = o.val then .ok s
  else .error .conflictingMarker

/-- The mutating call `self.merge(other)` of the funky trait returning a
Result: the state after the call paired with the reported error, the prior
state kept on the error path. -/
def funkyMergeMut {V : Type} [DecidableEq V] (s o : LWWReg V) : LWWReg V × Option FunkyError :=
  match funkyMerge s o with
  | .ok s' => (s', none)
  | .error e => (s, some e)

/-- Success of the funky merge, characterized: the operand with the larger
marker wins, and equal markers succeed only on equal values. -/
theorem funkyMerge_ok_iff {V : Type} [DecidableEq V] (s o r : LWWReg V) :
    funkyMerge s o = .ok r ↔
      (s.marker < o.marker ∧ r = o) ∨ (o.marker < s.marker ∧ r = s) ∨
      (s.marker = o.marker ∧ s.val = o.val ∧ r = s) := by
  unfold funkyMerge
  split_ifs with h1 h2 h3
  · simp only [Except.ok.injEq]
    constructor
    · intro h
      exact Or.inl ⟨h1, h.symm⟩
    · rintro (⟨_, rfl⟩ | ⟨h, rfl⟩ | ⟨h, _, rfl⟩)
      · rfl
      · exact absurd h1 (by omega)
      · exact absurd h1 (by omega)
  · simp only [Except.ok.injEq]
    constructor
    · intro h
      exact Or.inr (Or.inl ⟨h2, h.symm⟩)
    · rintro (⟨h, rfl⟩ | ⟨_, rfl⟩ | ⟨h, _, rfl⟩)
      · exact absurd h h1
      · rfl
      · rfl
  · simp only [Except.ok.injEq]
    constructor
    · intro h
      exact Or.inr (Or.inr ⟨by omega, h3, h.symm⟩)
    · rintro (⟨h, rfl⟩ | ⟨h, rfl⟩ | ⟨_, _, rfl⟩)
      · exact absurd h h1
      · rfl
      · rfl
  · constructor
    · intro h
      simp at h
    · rintro (⟨h, _⟩ | ⟨h, _⟩ | ⟨_, h, _⟩)
      · exact absurd h h1
      · exact absurd h h2
      · exact absurd h h3

/-- Two registers with equal values and equal markers are equal. -/
theorem LWWReg.ext' {V : Type} {r₁ r₂ : LWWReg V} (hv : r₁.val = r₂.val)
    (hm : r₁.marker = r₂.marker) : r₁ = r₂ := by
  cases r₁
  cases r₂
  simp_all

/-- C7: whenever the runtime-checked merge reports an error, the state after
the call is exactly the state before it; and on inputs where no error is
reported, the idempotence, commutativity and associativity laws of the
state-merge contract hold. -/
theorem funky_merge_laws {V : Type} [DecidableEq V]
    (s o x a sa p q c₁ c₂ u v w uv uvw vw uvw' : LWWReg V) (e : FunkyError)
    (herr : (funkyMergeMut s o).2 = some e)
    (hidem : funkyMerge x a = .ok sa)
    (hc₁ : funkyMerge p q = .ok c₁) (hc₂ : funkyMerge q p = .ok c₂)
    (h₁ : funkyMerge u v = .ok uv) (h₂ : funkyMerge uv w = .ok uvw)
    (h₃ : funkyMerge v w = .ok vw) (h₄ : funkyMerge u vw = .ok uvw') :
    (funkyMergeMut s o).1 = s ∧ funkyMerge sa a = .ok sa ∧ c₁ = c₂ ∧ uvw = uvw' := by
  refine ⟨?_, ?_, ?_, ?_⟩
  · unfold funkyMergeMut at herr ⊢
    cases hm : funkyMerge s o with
    | ok r => rw [hm] at herr; simp at herr
    | error e2 => rfl
  · rcases (funkyMerge_ok_iff x a sa).1 hidem with ⟨h, rfl⟩ | ⟨h, rfl⟩ | ⟨hm, hv, rfl⟩
    · simp [funkyMerge]
    · exact hidem
    · exact hidem
  · rcases (funkyMerge_ok_iff _ _ _).1 hc₁ with ⟨h, rfl⟩ | ⟨h, rfl⟩ | ⟨hm, hv, rfl⟩ <;>
      rcases (funkyMerge_ok_iff _ _ _).1 hc₂ with ⟨h', rfl⟩ | ⟨h', rfl⟩ | ⟨hm', hv', rfl⟩ <;>
      first
        | rfl
        | (exfalso; omega)
        | (apply LWWReg.ext' <;> first | omega | simp_all)
  · rcases (funkyMerge_ok_iff _ _ _).1 h₁ with ⟨ka, rfl⟩ | ⟨ka, rfl⟩ | ⟨kma, kva, rfl⟩ <;>
      rcases (funkyMerge_ok_iff _ _ _).1 h₂ with ⟨kb, rfl⟩ | ⟨kb, rfl⟩ | ⟨kmb, kvb, rfl⟩ <;>
      rcases (funkyMerge_ok_iff _ _ _).1 h₃ with ⟨kc, rfl⟩ | ⟨kc, rfl⟩ | ⟨kmc, kvc, rfl⟩ <;>
      rcases (funkyMerge_ok_iff _ _ _).1 h₄ with ⟨kd, rfl⟩ | ⟨kd, rfl⟩ | ⟨kmd, kvd, rfl⟩ <;>
      first
        | rfl
        | (exfalso; omega)

/-- C7 witness: the error path leaves the register untouched, and the three
laws hold at concrete registers where the merges succeed. -/
theorem funky_merge_laws_witness :
    (funkyMergeMut (⟨0, 5⟩ : LWWReg Nat) ⟨1, 5⟩).2 = some FunkyError.conflictingMarker ∧
    funkyMerge (⟨0, 0⟩ : LWWReg Nat) ⟨1, 1⟩ = .ok ⟨1, 1⟩ ∧
    funkyMerge (⟨0, 0⟩ : LWWReg Nat) ⟨1, 1⟩ = .ok ⟨1, 1⟩ ∧
    funkyMerge (⟨1, 1⟩ : LWWReg Nat) ⟨0, 0⟩ = .ok ⟨1, 1⟩ ∧
    funkyMerge (⟨0, 0⟩ : LWWReg Nat) ⟨1, 1⟩ = .ok ⟨1, 1⟩ ∧
    funkyMerge (⟨1, 1⟩ : LWWReg Nat) ⟨2, 2⟩ = .ok ⟨2, 2⟩ ∧
    funkyMerge (⟨1, 1⟩ : LWWReg Nat) ⟨2, 2⟩ = .ok ⟨2, 2⟩ ∧
    funkyMerge (⟨0, 0⟩ : LWWReg Nat) ⟨2, 2⟩ = .ok ⟨2, 2⟩ ∧
    ((funkyMergeMut (⟨0, 5⟩ : LWWReg Nat) ⟨1, 5⟩).1 = ⟨0, 5⟩ ∧
      funkyMerge (⟨1, 1⟩ : LWWReg Nat) ⟨1, 1⟩ = .ok ⟨1, 1⟩ ∧
      (⟨1, 1⟩ : LWWReg Nat) = ⟨1, 1⟩ ∧ (⟨2, 2⟩ : LWWReg Nat) = ⟨2, 2⟩) :=
  ⟨rfl, rfl, rfl, rfl, rfl, rfl, rfl, rfl,
    funky_merge_laws ⟨0, 5⟩ ⟨1, 5⟩ ⟨0, 0⟩ ⟨1, 1⟩ ⟨1, 1⟩ ⟨0, 0⟩ ⟨1, 1⟩ ⟨1, 1⟩ ⟨1, 1⟩
      ⟨0, 0⟩ ⟨1, 1⟩ ⟨2, 2⟩ ⟨1, 1⟩ ⟨2, 2⟩ ⟨2, 2⟩ ⟨2, 2⟩ FunkyError.conflictingMarker
      rfl rfl rfl rfl rfl rfl rfl rfl⟩

/-- The state-merge contract of src/src/traits.rs (trait CvRDT), embedded as
a record of its two methods: `validate_merge` takes both operands by shared
reference and returns a Result, and the mutating `merge` returns unit,
embedded as a total state transformer. -/
structure CvRDTContract (S V : Type) where
  validateMerge : S → S → Except V Unit
  merge : S → S → S

/-- The op-apply contract of src/src/traits.rs (trait CmRDT), embedded the
same way. -/
structure CmRDTContract (S Op V : Type) where
  validateOp : S → Op → Except V Unit
  apply : S → Op → S

/-- The embedding of a call `x.validate_merge(&y)`: both operands are borrowed
immutably, so the call yields its Result together with both operand states
threaded through. -/
def validateMergeCall {S V : Type} (c : CvRDTContract S V) (s o : S) :
    Except V Unit × S × S :=
  (c.validateMerge s o, s, o)

/-- The embedding of the mutating call `self.merge(other)`: the new state and
the unit value the call returns. -/
def mergeCall {S V : Type} (c : CvRDTContract S V) (s o : S) : S × Unit :=
  (c.merge s o, ())

/-- The embedding of the mutating call `self.apply(op)`. -/
def applyCall {S Op V : Type} (c : CmRDTContract S Op V) (s : S) (op : Op) : S × Unit :=
  (c.apply s op, ())

/-- C8: for every implementation of the state-merge contract, the call to
validate_merge leaves both operands exactly as they were, whatever Result it
yields; it only returns that Result. -/
theorem validate_merge_mutates_nothing {S V : Type} (c : CvRDTContract S V) (s o : S) :
    (validateMergeCall c s o).2.1 = s ∧ (validateMergeCall c s o).2.2 = o ∧
    (validateMergeCall c s o).1 = c.validateMerge s o :=
  ⟨rfl, rfl, rfl⟩

/-- C10: the non-runtime-checked mutating calls return unit — they have no
failure channel — so every input is accepted unconditionally: even on operands
or ops their validators reject, merge and apply still produce the merged or
updated state together with the unit return value. -/
theorem merge_apply_never_fail {S T Op V W : Type} (c : CvRDTContract S V)
    (d : CmRDTContract T Op W) (s o : S) (t : T) (op : Op) (e : V) (f : W)
    (_hrej₁ : c.validateMerge s o = .error e) (_hrej₂ : d.validateOp t op = .error f) :
    mergeCall c s o = (c.merge s o, ()) ∧ applyCall d t op = (d.apply t op, ()) :=
  ⟨rfl, rfl⟩

/-- A state-merge contract over Nat states whose validator rejects every
merge. -/
def rejectAllCv : CvRDTContract Nat Unit :=
  ⟨fun _ _ => .error (), fun s o => Nat.max s o⟩

/-- An op-apply contract over Nat states and Nat ops whose validator rejects
every op. -/
def rejectAllCm : CmRDTContract Nat Nat Unit :=
  ⟨fun _ _ => .error (), fun s op => s + op⟩

/-- C10 witness: a validator that rejects the input does not stop the mutating
calls from going through. -/
theorem merge_apply_never_fail_witness :
    rejectAllCv.validateMerge 1 2 = .error () ∧ rejectAllCm.validateOp 3 4 = .error () ∧
    (mergeCall rejectAllCv 1 2 = (rejectAllCv.merge 1 2, ()) ∧
      applyCall rejectAllCm 3 4 = (rejectAllCm.apply 3 4, ())) :=
  ⟨rfl, rfl, merge_apply_never_fail rejectAllCv rejectAllCm 1 2 3 4 () () rfl rfl⟩

end RustCrdt
